import Mathlib

/-!
Verification development for the build-file interpreter of a container-image
build engine (Go source: `builder` daemon file).  Go strings are embedded as
`List Char`; external collaborators (filesystem, image store, container
runtime, registry, JSON decoding) are modelled as explicit oracle functions
gathered in a `World` record, exactly as the spec declares them out of scope.
All definitions are translated from the Go source; totality deviations
(Go runtime panics on out-of-range indexing) are made explicit with a
dedicated `GoRes.panic` outcome.
-/

/-- Go strings are byte strings; the build engine only manipulates ASCII, so a
list of characters is a faithful embedding. -/
abbrev Str := List Char

/-- Shorthand to write concrete `Str` literals. -/
def toL (s : String) : Str := s.toList

/-- Embedding of Go `strings.SplitN(s, sep, 2)` for a one-character separator:
returns the part before the first separator and, when the separator occurs,
the rest.  `none` in the second component means the separator is absent
(Go returns a one-element slice). -/
def splitN2 (sep : Char) : Str → Str × Option Str
  | [] => ([], none)
  | c :: rest =>
    if c = sep then ([], some rest)
    else
      let p := splitN2 sep rest
      (c :: p.1, p.2)

/-- Embedding of Go `strings.Split(s, sep)` for a one-character separator. -/
def splitAll (sep : Char) : Str → List Str
  | [] => [[]]
  | c :: rest =>
    if c = sep then [] :: splitAll sep rest
    else
      match splitAll sep rest with
      | h :: t => (c :: h) :: t
      | [] => [[c]]

/-- Embedding of Go `strings.Join(parts, sep)` for a one-character separator. -/
def joinSep (sep : Char) : List Str → Str
  | [] => []
  | [l] => l
  | l :: ls => l ++ sep :: joinSep sep ls

/-- Embedding of Go `strings.Trim(s, cutset)`: remove leading and trailing
characters belonging to `cut`. -/
def trimCutset (cut : List Char) (s : Str) : Str :=
  ((s.dropWhile (cut.contains ·)).reverse.dropWhile (cut.contains ·)).reverse

/-- Embedding of Go `strings.HasPrefix(s, pre)`. -/
def hasPfx (s pre : Str) : Bool := pre.isPrefixOf s

/-- Go `strings.ToUpper` (ASCII inputs only appear in this program). -/
def toUpperStr (s : Str) : Str := s.map Char.toUpper

/-- Go `strings.ToLower` (ASCII inputs only appear in this program). -/
def toLowerStr (s : Str) : Str := s.map Char.toLower

/-- Byte-wise `≤` on strings, as used by Go `sort.Strings`. -/
def strLe : Str → Str → Bool
  | [], _ => true
  | _ :: _, [] => false
  | a :: as, b :: bs => if a = b then strLe as bs else decide (a.toNat ≤ b.toNat)

/-- Insert into a `strLe`-sorted list. -/
def insSorted (x : Str) : List Str → List Str
  | [] => [x]
  | y :: ys => if strLe x y then x :: y :: ys else y :: insSorted x ys

/-- Embedding of Go `sort.Strings`. -/
def sortStrs (l : List Str) : List Str := l.foldr insSorted []

/-- One step of Go `path.Clean`'s component processing: `.` is dropped, `..`
pops a non-`..` component (or is dropped at the root, or kept when relative),
anything else is pushed. -/
def cleanStep (rooted : Bool) (acc : List Str) (e : Str) : List Str :=
  if e = ['.'] then acc
  else if e = ['.', '.'] then
    if acc ≠ [] ∧ acc.getLast? ≠ some ['.', '.'] then acc.dropLast
    else if rooted then acc
    else acc ++ [['.', '.']]
  else acc ++ [e]

/-- Embedding of Go `path.Clean` (lexical path cleaning). -/
def pathClean (p : Str) : Str :=
  if p = [] then ['.']
  else
    let rooted := p.headD ' ' = '/'
    let comps := (splitAll '/' p).filter (· ≠ [])
    let out := comps.foldl (cleanStep rooted) []
    let res := (if rooted then ['/'] else []) ++ joinSep '/' out
    if res = [] then ['.'] else res

/-- Embedding of Go `path.Join` (also `filepath.Join` on a slash-separated
platform): drop empty elements, join with `/`, clean. -/
def pathJoin (elems : List Str) : Str :=
  let ne := elems.filter (· ≠ [])
  if ne = [] then [] else pathClean (joinSep '/' ne)

/-!
## Env interpolation (`ReplaceEnvMatches`)

The Go source compiles the regular expression
`(\\\\+|[^\\]|\b|\A)\$({?)([[:alnum:]_]+)(}?)` and calls `FindAllString`
(leftmost scan, alternation preference in written order, greedy quantifiers).
The matcher below implements exactly that pattern's semantics.
-/

/-- Word characters of the regex `\b` assertion and of `[[:alnum:]_]`
(ASCII letters, digits, underscore). -/
def isWordC (c : Char) : Bool := c.isAlpha || c.isDigit || c = '_'

/-- Word-boundary (`\b`) test between the previous character (`none` at the
string edge) and the current one. -/
def boundaryB (prev cur : Option Char) : Bool :=
  (match prev with | some c => isWordC c | none => false)
    != (match cur with | some c => isWordC c | none => false)

/-- Match the `\$({?)([[:alnum:]_]+)(}?)` tail of the pattern at the head of
`s`; returns the matched text and the remainder. -/
def matchDollar : Str → Option (Str × Str)
  | '$' :: rest =>
    match rest with
    | '{' :: r2 =>
      let name := r2.takeWhile isWordC
      if name.isEmpty then none
      else
        match r2.drop name.length with
        | '}' :: r4 => some ('$' :: '{' :: (name ++ ['}']), r4)
        | r3 => some ('$' :: '{' :: name, r3)
    | _ =>
      let name := rest.takeWhile isWordC
      if name.isEmpty then none
      else
        match rest.drop name.length with
        | '}' :: r4 => some ('$' :: (name ++ ['}']), r4)
        | r3 => some ('$' :: name, r3)
  | _ => none

/-- Attempt the whole pattern at the current position.  The four group-1
alternatives are tried in the regex's written order: a run of two or more
backslashes, a single non-backslash character, a word boundary, start of
text.  Returns the matched text and the remainder of the string. -/
def tryMatch (atStart : Bool) (prev : Option Char) (s : Str) : Option (Str × Str) :=
  let bs := s.takeWhile (· = '\\')
  let alt1 :=
    if 2 ≤ bs.length then
      match matchDollar (s.drop bs.length) with
      | some (m, r) => some (bs ++ m, r)
      | none => none
    else none
  match alt1 with
  | some res => some res
  | none =>
    let alt2 :=
      match s with
      | c :: rest =>
        if c ≠ '\\' then
          match matchDollar rest with
          | some (m, r) => some (c :: m, r)
          | none => none
        else none
      | [] => none
    match alt2 with
    | some res => some res
    | none =>
      let alt3 := if boundaryB prev s.head? then matchDollar s else none
      match alt3 with
      | some res => some res
      | none => if atStart then matchDollar s else none

/-- Leftmost non-overlapping scan of `FindAllString`; `fuel` bounds the
recursion (each step consumes at least one character, so `s.length` fuel is
always sufficient). -/
def findAllGo : Nat → Bool → Option Char → Str → List Str
  | 0, _, _, _ => []
  | _ + 1, _, _, [] => []
  | fuel + 1, atStart, prev, c :: rest =>
    match tryMatch atStart prev (c :: rest) with
    | some (m, r) => m :: findAllGo fuel false m.getLast? r
    | none => findAllGo fuel false (some c) rest

/-- Embedding of `exp.FindAllString(value, -1)` for the interpolation
pattern. -/
def findAllString (s : Str) : List Str := findAllGo s.length true none s

/-- Go runtime outcomes: a normal value, an error return, or a runtime panic
(out-of-range indexing). -/
inductive GoRes (α : Type) where
  | ok (a : α)
  | err (m : Str)
  | panic
deriving DecidableEq, Repr

/-- Embedding of `match[strings.Index(match, "$"):]`: strip the group-1
context off a match (every match contains a `$`). -/
def dropUntilDollar (s : Str) : Str := s.dropWhile (· ≠ '$')

/-- Scan `config.Env` like the inner loop of `ReplaceEnvMatches`: split each
entry on the first `=`, compare the key, return the first matching value.
Go evaluates `envParts[1]` before the comparison, so an entry with no `=`
is an out-of-range panic as soon as it is scanned. -/
def lookupEnvValue : List Str → Str → GoRes (Option Str)
  | [], _ => .ok none
  | e :: rest, key =>
    match splitN2 '=' e with
    | (k, some v) => if k = key then .ok (some v) else lookupEnvValue rest key
    | (_, none) => .panic

/-- Fuelled embedding of Go `strings.Replace(s, old, new, -1)` (replace all
non-overlapping occurrences, scanning left to right).  `old` is never empty
at the call sites (every match contains `$NAME`); fuel `s.length` is always
sufficient. -/
def replaceAllGo (old new : Str) : Nat → Str → Str
  | _, [] => []
  | 0, s => s
  | fuel + 1, c :: rest =>
    if old ≠ [] ∧ old.isPrefixOf (c :: rest) then
      new ++ replaceAllGo old new fuel ((c :: rest).drop old.length)
    else c :: replaceAllGo old new fuel rest

/-- Embedding of Go `strings.Replace(s, old, new, -1)`. -/
def replaceAllStr (s old new : Str) : Str := replaceAllGo old new s.length s

/-- Process one regex match the way the loop body of `ReplaceEnvMatches`
does: strip to the `$`, trim `$`, `{`, `}` from both ends to get the key,
and on an Env hit replace every textual occurrence of the token. -/
def replaceOneMatch (env : List Str) (v : GoRes Str) (match0 : Str) : GoRes Str :=
  match v with
  | .ok value =>
    let m := dropUntilDollar match0
    let key := trimCutset ['$', '{', '}'] m
    match lookupEnvValue env key with
    | .ok (some envValue) => .ok (replaceAllStr value m envValue)
    | .ok none => .ok value
    | .err e => .err e
    | .panic => .panic
  | other => other

/-- Embedding of `(b *buildFile) ReplaceEnvMatches(value)`: find all matches
of the pattern in the original value, then fold the per-match global
replacement over them. -/
def replaceEnvMatches (env : List Str) (value : Str) : GoRes Str :=
  (findAllString value).foldl (replaceOneMatch env) (.ok value)

/-!
## Data model

`Config` embeds the fields of `runconfig.Config` the builder touches; `BF`
embeds the mutable fields of `buildFile` threaded through every step, plus a
ghost trace `committed` recording each config handed to the external
image-commit operation.  `World` gathers the external collaborators (spec
§1: filesystem, image store, container runtime, archive library) as oracle
functions.
-/

structure Config where
  Cmd : List Str := []
  Entrypoint : List Str := []
  Env : List Str := []
  WorkingDir : Str := []
  User : Str := []
  ExposedPorts : List Str := []
  Volumes : List Str := []
  OnBuild : List Str := []
  Image : Str := []
deriving DecidableEq, Repr, Inhabited

structure BF where
  image : Str := []
  maintainer : Str := []
  config : Config := {}
  cmdSet : Bool := false
  utilizeCache : Bool := true
  hasContext : Bool := false
  contextPath : Str := []
  sums : List (Str × Str) := []
  tmpContainers : List Str := []
  tmpImages : List Str := []
  committed : List Config := []
deriving DecidableEq, Repr, Inhabited

structure World where
  isURL : Str → Bool
  resolve : Str → Option Str
  statEx : Str → Bool
  statDir : Str → Option Bool
  sha256hex : Str → Str
  download : Str → Option (Str × Str)
  urlFilename : Str → Option Str
  cacheLookup : Str → Config → Option Str
  createID : Config → Str
  addContextErr : Str → Str → Bool → Option Str
  commitID : Str → Config → Str

/-- The synthetic `config.Cmd` used for metadata-only steps:
`["/bin/sh", "-c", "#(nop) " + comment]`. -/
def nopCmd (comment : Str) : List Str :=
  [toL "/bin/sh", toL "-c", toL "#(nop) " ++ comment]

/-- Embedding of `fmt.Sprintf("%v", xs)` for a string slice: `[a b c]`. -/
def formatStrList (l : List Str) : Str := '[' :: (joinSep ' ' l ++ [']'])

/-- Embedding of `(b *buildFile) probeCache()`: when caching is enabled,
query the image store for a cached child of the current image with the
current config; on a hit advance `b.image` to the cached ID. -/
def probeCache (w : World) (b : BF) : Bool × BF :=
  if b.utilizeCache then
    match w.cacheLookup b.image b.config with
    | some cid => (true, {b with image := cid})
    | none => (false, b)
  else (false, b)

/-- The tail of `commit`: copy the config, overwrite its `Cmd` with
`autoCmd`, invoke the external image-commit, advance `b.image`, and record
the committed config in the ghost trace. -/
def commitFinish (w : World) (id : Str) (autoCmd : List Str) (b : BF) : BF :=
  let autoConfig := {b.config with Cmd := autoCmd}
  let img := w.commitID id autoConfig
  {b with tmpImages := b.tmpImages ++ [img],
          image := img,
          committed := b.committed ++ [autoConfig]}

/-- Embedding of `(b *buildFile) commit(id, autoCmd, comment)`.  For a
metadata-only step (`id` empty) the `#(nop)` sentinel Cmd is installed, the
cache probed, and on a miss a snapshot container created; the deferred
function restores `config.Cmd` on every return of that branch. -/
def commit (w : World) (id : Str) (autoCmd : List Str) (comment : Str) (b : BF) :
    GoRes BF :=
  if b.image = [] then
    .err (toL "Please provide a source image with from prior to commit")
  else
    let b := {b with config := {b.config with Image := b.image}}
    if id = [] then
      let cmd := b.config.Cmd
      let b := {b with config := {b.config with Cmd := nopCmd comment}}
      match probeCache w b with
      | (true, b1) => .ok {b1 with config := {b1.config with Cmd := cmd}}
      | (false, b1) =>
        let cid := w.createID b1.config
        let b2 := {b1 with tmpContainers := b1.tmpContainers ++ [cid]}
        let b3 := commitFinish w cid autoCmd b2
        .ok {b3 with config := {b3.config with Cmd := cmd}}
    else .ok (commitFinish w id autoCmd b)

/-- Embedding of `buildCmdFromJson`: try to decode the argument as a JSON
string array (the decoder is the external `encoding/json` library, passed as
the oracle `parse`); on failure wrap as `/bin/sh -c`. -/
def buildCmdFromJson (parse : Str → Option (List Str)) (args : Str) : List Str :=
  match parse args with
  | some cmd => cmd
  | none => [toL "/bin/sh", toL "-c", args]

/-- Embedding of `CmdCmd`: set `config.Cmd`, commit a metadata-only layer,
and only after a successful commit record that CMD appeared in this
recipe. -/
def cmdCmd (w : World) (parse : Str → Option (List Str)) (args : Str) (b : BF) :
    GoRes BF :=
  let cmd := buildCmdFromJson parse args
  let b := {b with config := {b.config with Cmd := cmd}}
  match commit w [] b.config.Cmd (toL "CMD " ++ formatStrList cmd) b with
  | .ok b2 => .ok {b2 with cmdSet := true}
  | other => other

/-- Embedding of `CmdEntrypoint`: set `config.Entrypoint`; when no CMD has
appeared in this recipe, clear `config.Cmd`; commit a metadata-only layer
whose autoCmd is the (possibly cleared) `config.Cmd`. -/
def cmdEntrypoint (w : World) (parse : Str → Option (List Str)) (args : Str)
    (b : BF) : GoRes BF :=
  let entrypoint := buildCmdFromJson parse args
  let b := {b with config := {b.config with Entrypoint := entrypoint}}
  let b := if b.cmdSet then b else {b with config := {b.config with Cmd := []}}
  commit w [] b.config.Cmd (toL "ENTRYPOINT " ++ formatStrList entrypoint) b

/-- The key of an Env entry, as `FindEnvKey` extracts it: the part before
the first `=`. -/
def envKey (e : Str) : Str := (splitN2 '=' e).1

/-- Embedding of `FindEnvKey` (Go returns `-1` for absence; `Option Nat`
plays that role): index of the first `config.Env` entry whose key equals
`key`. -/
def findEnvKeyIdx (key : Str) : List Str → Option Nat
  | [] => none
  | e :: rest =>
    if envKey e = key then some 0 else (findEnvKeyIdx key rest).map (· + 1)

/-- The Env update performed by `CmdEnv`: replace in place at the found
index, else append. -/
def envUpdate (env : List Str) (idx : Option Nat) (entry : Str) : List Str :=
  match idx with
  | some i => env.set i entry
  | none => env ++ [entry]

/-- Embedding of `CmdEnv`: split the argument on the first space, trim key
and value, interpolate the value, then replace-in-place or append the
`KEY=VALUE` entry and commit a metadata-only layer. -/
def cmdEnv (w : World) (args : Str) (b : BF) : GoRes BF :=
  match splitN2 ' ' args with
  | (_, none) => .err (toL "Invalid ENV format")
  | (t0, some t1) =>
    let key := trimCutset [' ', '\t'] t0
    let value := trimCutset [' ', '\t'] t1
    let idx := findEnvKeyIdx key b.config.Env
    match replaceEnvMatches b.config.Env value with
    | .err m => .err m
    | .panic => .panic
    | .ok replacedValue =>
      let replacedVar := key ++ '=' :: replacedValue
      let b := {b with config :=
        {b.config with Env := envUpdate b.config.Env idx replacedVar}}
      commit w [] b.config.Cmd (toL "ENV " ++ replacedVar) b

/-- First word of an ONBUILD trigger, as both `CmdOnbuild` and `CmdFrom`
compute it: split on spaces, trim spaces off the first piece, upper-case. -/
def triggerInstruction (t : Str) : Str :=
  toUpperStr (trimCutset [' '] ((splitAll ' ' t).headD []))

/-- The forbidden-trigger test shared by `CmdOnbuild` and `CmdFrom`. -/
def isForbiddenTrigger (t : Str) : Bool :=
  let i := triggerInstruction t
  i = toL "ONBUILD" || i = toL "MAINTAINER" || i = toL "FROM"

/-- Embedding of `CmdOnbuild`: reject `ONBUILD`, `MAINTAINER`, `FROM`
triggers before touching `config.OnBuild`; otherwise append the raw trigger
and commit a metadata-only layer. -/
def cmdOnbuild (w : World) (trigger : Str) (b : BF) : GoRes BF :=
  let instr := triggerInstruction trigger
  if instr = toL "ONBUILD" then
    .err (toL "Chaining ONBUILD via ONBUILD ONBUILD is not allowed")
  else if instr = toL "MAINTAINER" ∨ instr = toL "FROM" then
    .err (instr ++ toL " is not allowed as an ONBUILD trigger")
  else
    let b := {b with config :=
      {b.config with OnBuild := b.config.OnBuild ++ [trigger]}}
    commit w [] b.config.Cmd (toL "ONBUILD " ++ trigger) b

/-- Embedding of the trigger-execution loop at the end of `CmdFrom`: each
stored trigger is screened for the forbidden first words and then dispatched
as a recipe line.  The dispatcher `exec` (i.e. `BuildStep`) is passed as a
parameter; the screening happens before it is invoked. -/
def processTriggers (exec : Str → BF → GoRes BF) : List Str → BF → GoRes BF
  | [], b => .ok b
  | step :: rest, b =>
    let instr := triggerInstruction step
    if instr = toL "ONBUILD" then
      .err (toL "Source image contains forbidden chained ONBUILD ONBUILD trigger: " ++ step)
    else if instr = toL "MAINTAINER" ∨ instr = toL "FROM" then
      .err (toL "Source image contains forbidden " ++ instr ++ toL " trigger: " ++ step)
    else
      match exec step b with
      | .ok b2 => processTriggers exec rest b2
      | other => other

/-- Embedding of `CmdWorkdir`: Go reads `workdir[0]`, an out-of-range panic
when the argument is empty; an absolute path replaces `config.WorkingDir`,
a relative one is joined onto it (defaulting to `/`). -/
def cmdWorkdir (w : World) (workdir : Str) (b : BF) : GoRes BF :=
  match workdir with
  | [] => .panic
  | c :: _ =>
    let b :=
      if c = '/' then {b with config := {b.config with WorkingDir := workdir}}
      else
        let wd := if b.config.WorkingDir = [] then toL "/" else b.config.WorkingDir
        {b with config := {b.config with WorkingDir := pathJoin [wd, workdir]}}
    commit w [] b.config.Cmd (toL "WORKDIR " ++ workdir) b

/-!
## FROM: config aliasing and ONBUILD trigger extraction

Go assigns `b.config = image.Config`, a pointer assignment.  To express the
sharing, configs live in an explicit heap of cells and both the image record
and the build state hold cell indices (pointers).
-/

/-- Modelled from the spec: the `DefaultPathEnv` constant is defined outside
the provided sources; the spec only says the empty Env is seeded with "a
default `PATH=` entry". -/
def DefaultPathEnv : Str :=
  toL "/usr/local/sbin:/usr/local/bin:/usr/sbin:/usr/bin:/sbin:/bin"

/-- The single seeded entry `"PATH=" + DefaultPathEnv`. -/
def defaultPathEntry : Str := toL "PATH=" ++ DefaultPathEnv

/-- A resolved image as `CmdFrom` sees it: its ID and its stored config,
which in Go is a pointer (`nil` or a heap cell). -/
structure ImageRec where
  ID : Str
  configIdx : Option Nat
deriving DecidableEq, Repr

/-- The state fragment of `CmdFrom`'s config setup: the heap of config
cells, the current image ID and the build state's config pointer. -/
structure FromState where
  heap : List Config
  bImage : Str := []
  bConfigIdx : Nat := 0
deriving DecidableEq, Repr

/-- Embedding of lines 202–217 of `CmdFrom`: set `b.image`; point `b.config`
at the image's stored config (allocating a fresh empty one only when the
image has none); seed `PATH` when Env is empty; copy the ONBUILD triggers
aside and clear them on the live config.  Every write goes through the
config pointer, so when the image had a config the writes land in the
image's own cell.  Returns the new state and the extracted triggers. -/
def cmdFromSetup (img : ImageRec) (s : FromState) : FromState × List Str :=
  let alloc :=
    match img.configIdx with
    | some i => (s.heap, i)
    | none => (s.heap ++ [({} : Config)], s.heap.length)
  let heap := alloc.1
  let idx := alloc.2
  let c0 := heap.getD idx {}
  let c1 := if c0.Env = [] then {c0 with Env := [defaultPathEntry]} else c0
  let heap := if c0.Env = [] then heap.set idx c1 else heap
  let triggers := c1.OnBuild
  let heap := heap.set idx {c1 with OnBuild := []}
  ({heap := heap, bImage := img.ID, bConfigIdx := idx}, triggers)

/-!
## COPY/ADD: context path validation, fingerprint, materialization
-/

/-- Embedding of `checkPathForAddition`: join the source path onto the
context root, resolve symlinks through the filesystem oracle, reject when
the resolved path does not have the context root as a string prefix, and
require the resolved path to exist. -/
def checkPathForAddition (w : World) (contextPath orig : Str) : GoRes Unit :=
  let origPath := pathJoin [contextPath, orig]
  match w.resolve origPath with
  | none => .err (orig ++ toL ": no such file or directory")
  | some p =>
    if hasPfx p contextPath = false then
      .err (toL "Forbidden path outside the build context: " ++ orig)
    else if w.statEx p then .ok () else
      .err (orig ++ toL ": no such file or directory")

/-- Embedding of the content-hash computation of `runContextCommand`
(lines 686–711): remote checksum when present; `dir:`-prefixed digest of the
sorted per-file sums under the source directory; `file:`-prefixed sum for a
file listed in the context sums; empty hash for a file that is absent from
them.  The file branch also trims a leading `/` and a leading `./` off
`origPath` (a reassignment that is visible to the later materialization);
Go indexes `origPath[0]`, a panic on an empty path. -/
def contextHash (w : World) (contextPath : Str) (sums : List (Str × Str))
    (origPath remoteHash : Str) : GoRes (Str × Str) :=
  if remoteHash ≠ [] then .ok (remoteHash, origPath)
  else
    match w.statDir (pathJoin [contextPath, origPath]) with
    | none => .err (toL "stat error")
    | some true =>
      let absOrigPath := pathJoin [contextPath, origPath]
      let subfiles := sortStrs
        (((sums.filter
            (fun fs => hasPfx (pathJoin [contextPath, fs.1]) absOrigPath))).map
          (·.2))
      .ok (toL "dir:" ++ w.sha256hex (joinSep ',' subfiles), origPath)
    | some false =>
      match origPath with
      | [] => .panic
      | c :: rest =>
        let p1 := if c = '/' ∧ rest ≠ [] then rest else c :: rest
        let p2 := if (toL "./").isPrefixOf p1 then p1.drop 2 else p1
        match sums.lookup p2 with
        | some h => .ok (toL "file:" ++ h, p2)
        | none => .ok ([], p2)

/-- The remote-source handling of `runContextCommand` (lines 606–673),
with the download, mtime normalization and URL parsing delegated to the
`World` oracles.  Returns `(origPath, destPath, remoteHash, isRemote)`. -/
def remoteStep (w : World) (orig dest : Str) : GoRes (Str × Str × Str × Bool) :=
  if w.isURL orig then
    match w.download orig with
    | none => .err (toL "download failed")
    | some (dl, rhash) =>
      if dest.getLast? = some '/' then
        match w.urlFilename orig with
        | none => .err (toL "cannot determine filename from url: " ++ orig)
        | some fn =>
          if fn = [] then .err (toL "cannot determine filename from url: " ++ orig)
          else .ok (dl, dest ++ fn, rhash, true)
      else .ok (dl, dest, rhash, true)
  else .ok (orig, dest, [], false)

/-- The cache block of `runContextCommand` (lines 680–721): compute the
content hash, install the `#(nop) <cmd> <hash> in <dest>` sentinel Cmd,
probe, and report whether the step may be skipped — which requires both a
hit and a non-empty hash.  Returns `(skip, origPath, b)`. -/
def cacheStepRCC (w : World) (cmdName dest origPath remoteHash : Str) (b : BF) :
    GoRes (Bool × Str × BF) :=
  if b.utilizeCache then
    match contextHash w b.contextPath b.sums origPath remoteHash with
    | .err m => .err m
    | .panic => .panic
    | .ok (hash, origPath1) =>
      let b := {b with config := {b.config with
        Cmd := nopCmd (cmdName ++ ' ' :: hash ++ toL " in " ++ dest)}}
      let hb := probeCache w b
      .ok (hb.1 && !hash.isEmpty, origPath1, hb.2)
  else .ok (false, origPath, b)

/-- Embedding of `runContextCommand` (COPY with `allowRemote = false,
allowDecompression = false`; ADD with both true): parse and interpolate the
two path arguments, handle a remote source, validate the local path against
the context sandbox, probe the cache with a content-hash sentinel, and on a
usable hit skip; otherwise create an intermediate container, materialize the
files into it (`addContext`, an external-filesystem operation delegated to
the oracle) and commit.  The deferred function restores `config.Cmd` on
every successful return. -/
def runContextCommand (w : World) (args : Str) (allowRemote allowDecompression : Bool)
    (cmdName : Str) (b : BF) : GoRes BF :=
  if b.hasContext = false then
    .err (toL "No context given. Impossible to use " ++ cmdName)
  else
    match splitN2 ' ' args with
    | (_, none) => .err (toL "Invalid " ++ cmdName ++ toL " format")
    | (t0, some t1) =>
      match replaceEnvMatches b.config.Env (trimCutset [' ', '\t'] t0) with
      | .err m => .err m
      | .panic => .panic
      | .ok orig =>
        match replaceEnvMatches b.config.Env (trimCutset [' ', '\t'] t1) with
        | .err m => .err m
        | .panic => .panic
        | .ok dest =>
          let cmd := b.config.Cmd
          let b := {b with config := {b.config with
            Cmd := nopCmd (cmdName ++ ' ' :: orig ++ toL " in " ++ dest),
            Image := b.image}}
          if w.isURL orig ∧ allowRemote = false then
            .err (toL "Source cannot be an URL for " ++ cmdName)
          else
            match remoteStep w orig dest with
            | .err m => .err m
            | .panic => .panic
            | .ok (origPath, destPath, remoteHash, isRemote) =>
              match checkPathForAddition w b.contextPath origPath with
              | .err m => .err m
              | .panic => .panic
              | .ok _ =>
                match cacheStepRCC w cmdName dest origPath remoteHash b with
                | .err m => .err m
                | .panic => .panic
                | .ok (skip, origPath2, b) =>
                  if skip then .ok {b with config := {b.config with Cmd := cmd}}
                  else
                    let cid := w.createID b.config
                    let b := {b with tmpContainers := b.tmpContainers ++ [cid]}
                    let decompress := allowDecompression && !isRemote
                    match w.addContextErr origPath2 destPath decompress with
                    | some m => .err m
                    | none =>
                      match commit w cid cmd
                          (cmdName ++ ' ' :: orig ++ toL " in " ++ dest) b with
                      | .err m => .err m
                      | .panic => .panic
                      | .ok b2 =>
                        .ok {b2 with config := {b2.config with Cmd := cmd}}

/-!
## Recipe preprocessing and step dispatch
-/

/-- The comment test of `stripComments`: a line is dropped when it is empty
or its first byte is `#`. -/
def keepLine (l : Str) : Bool := !(l.isEmpty || l.headD ' ' = '#')

/-- Embedding of `stripComments`: split into lines, drop empty lines and
lines whose first byte is `#`, re-join. -/
def stripComments (raw : Str) : Str :=
  joinSep '\n' ((splitAll '\n' raw).filter keepLine)

/-- Fuelled scanner for `lineContinuation.ReplaceAllString(s, "")` with
pattern `\\\s*\n`: a backslash followed by a whitespace run containing a
newline is deleted up to the last newline of the run (the greedy `\s*`
includes newlines). -/
def joinContGo : Nat → Str → Str
  | 0, s => s
  | _ + 1, [] => []
  | fuel + 1, c :: rest =>
    if c = '\\' then
      let ws := rest.takeWhile (fun x => x = ' ' ∨ x = '\t' ∨ x = '\n' ∨ x = '\r' ∨ x = '\x0c' ∨ x = '\x0b')
      match (List.range ws.length).filter (fun i => ws.getD i ' ' = '\n') with
      | [] => c :: joinContGo fuel rest
      | is =>
        let lastNl := is.getLastD 0
        joinContGo fuel (rest.drop (lastNl + 1))
    else c :: joinContGo fuel rest

/-- Embedding of the line-continuation removal. -/
def joinContinuations (s : Str) : Str := joinContGo s.length s

/-- The whole preprocessing of `Build` (line 895): strip comments first,
then join continued lines. -/
def preprocess (raw : Str) : Str := joinContinuations (stripComments raw)

/-- The per-line normalization of `Build`'s loop (line 899): tabs to spaces,
then trim spaces, tabs, `\r`, `\n` from both ends. -/
def normalizeLine (l : Str) : Str :=
  trimCutset [' ', '\t', '\r', '\n'] (l.map (fun c => if c = '\t' then ' ' else c))

/-- The logical lines `Build` dispatches: preprocess, split on newlines,
normalize, drop empties. -/
def logicalLines (raw : Str) : List Str :=
  (((splitAll '\n' (preprocess raw)).map normalizeLine).filter (· ≠ []))

/-- What `BuildStep` decides to do with one logical line, before any handler
runs. -/
inductive StepAction where
  | invalidFormat
  | indexPanic
  | skipUnknown (instr : Str)
  | dispatch (instr args : Str)
deriving DecidableEq, Repr

/-- The reflective method-name computation
`strings.ToUpper(instruction[:1]) + strings.ToLower(instruction[1:])`,
the part following the constant `Cmd`. -/
def methodSuffix : Str → Str
  | [] => []
  | c :: rest => Char.toUpper c :: toLowerStr rest

/-- The exported `Cmd*` methods of `*buildFile` that the reflective
`MethodByName` lookup can find, keyed by their suffix. -/
def goMethodSuffixes : List Str :=
  [toL "Add", toL "Cmd", toL "Copy", toL "Entrypoint", toL "Env", toL "Expose",
   toL "From", toL "Insert", toL "Maintainer", toL "Onbuild", toL "Run",
   toL "User", toL "Volume", toL "Workdir"]

/-- Whether the reflective lookup finds a handler for the (lower-cased)
instruction. -/
def hasCmdMethod (instr : Str) : Bool :=
  goMethodSuffixes.contains (methodSuffix instr)

/-- Embedding of the dispatch logic of `BuildStep` (lines 921–943): split
the expression once on a space — fewer than two parts is an invalid-format
error; lower-case and trim the instruction; Go then slices
`instruction[:1]`, a panic when the instruction is empty; an instruction
with no matching `Cmd*` method is warned about and skipped; otherwise the
handler is invoked on the trimmed arguments. -/
def buildStepAction (expression : Str) : StepAction :=
  match splitN2 ' ' expression with
  | (_, none) => .invalidFormat
  | (t0, some t1) =>
    let instruction := toLowerStr (trimCutset [' '] t0)
    let arguments := trimCutset [' '] t1
    match instruction with
    | [] => .indexPanic
    | _ =>
      if hasCmdMethod instruction then .dispatch instruction arguments
      else .skipUnknown instruction

/-!
## Concrete scenarios (worlds and states used in closed statements)
-/

/-- The uniqueness invariant on `config.Env` stated by the spec: no two
entries share the same key (the part before the first `=`). -/
def atMostOnePerKey (env : List Str) : Prop := (env.map envKey).Nodup

instance (env : List Str) : Decidable (atMostOnePerKey env) := by
  unfold atMostOnePerKey
  infer_instance

/-- A concrete oracle bundle: every path resolves to itself and exists, the
image store never reports a cache hit, container and image identifiers are
fixed tags. -/
def cxWorld : World where
  isURL := fun _ => false
  resolve := fun p => some p
  statEx := fun _ => true
  statDir := fun _ => some false
  sha256hex := fun _ => []
  download := fun _ => none
  urlFilename := fun _ => none
  cacheLookup := fun _ _ => none
  createID := fun _ => toL "ctr"
  addContextErr := fun _ _ _ => none
  commitID := fun cid _ => toL "img-" ++ cid

/-- A filesystem oracle in which `/tmp/ctx/lnk` is a symbolic link whose
target `/tmp/ctxevil/secret` lies in a sibling directory of the context root
`/tmp/ctx` — the sibling's name extends the context root as a string. -/
def escWorld : World :=
  { cxWorld with
    resolve := fun p =>
      if p = toL "/tmp/ctx/lnk" then some (toL "/tmp/ctxevil/secret") else none
    statEx := fun p => p = toL "/tmp/ctxevil/secret" }

/-- An image-store oracle that always reports a cache hit. -/
def hitWorld : World :=
  { cxWorld with cacheLookup := fun _ _ => some (toL "cachedID") }

/-- A resolved base image whose stored config is heap cell 0. -/
def aliasImg : ImageRec := { ID := toL "base", configIdx := some 0 }

/-- A heap holding that stored config: non-empty Env, one ONBUILD trigger. -/
def aliasState : FromState :=
  { heap := [{ Env := [toL "A=1"], OnBuild := [toL "RUN touch /x"] }] }

/-- A build state with one Env entry keyed `A`, as left by an earlier
`ENV A x`. -/
def envCxB : BF := { image := toL "base", config := { Env := [toL "A=x"] } }

/-- A build state after a FROM whose base image carried `CMD ["b"]`. -/
def entryB : BF := { image := toL "base", config := { Cmd := [toL "b"] } }

/-- A build state with an extracted context at `/ctx` and no recorded
context sums. -/
def rccB : BF := { image := toL "base", hasContext := true, contextPath := toL "/ctx" }

/-- A concrete JSON-decoder oracle that accepts every argument as `["a"]`. -/
def parseA : Str → Option (List Str) := fun _ => some [toL "a"]

/-- The result of `cmdEntrypoint cxWorld parseA "x" entryB`. -/
def c5out : BF :=
  { image := toL "img-ctr",
    config := { Cmd := [], Entrypoint := [toL "a"], Image := toL "base" },
    tmpContainers := [toL "ctr"], tmpImages := [toL "img-ctr"],
    committed := [{ Cmd := [], Entrypoint := [toL "a"], Image := toL "base" }] }

/-- The result of `cmdEnv cxWorld "A=B C" envCxB`: the entry appended for
the key argument `A=B` itself has key `A`, duplicating the existing one. -/
def c6cxOut : BF :=
  { image := toL "img-ctr",
    config := { Env := [toL "A=x", toL "A=B=C"], Image := toL "base" },
    tmpContainers := [toL "ctr"], tmpImages := [toL "img-ctr"],
    committed := [{ Env := [toL "A=x", toL "A=B=C"], Image := toL "base" }] }

/-- The result of `cmdEnv cxWorld "B 2" envCxB`. -/
def c6out : BF :=
  { image := toL "img-ctr",
    config := { Env := [toL "A=x", toL "B=2"], Image := toL "base" },
    tmpContainers := [toL "ctr"], tmpImages := [toL "img-ctr"],
    committed := [{ Env := [toL "A=x", toL "B=2"], Image := toL "base" }] }

/-- The result of `runContextCommand hitWorld "foo /dst" true true "ADD"
rccB`: although the store always reports a hit, the content hash of `foo`
(absent from the context sums) is empty, so the step still creates
container `ctr` and commits; the final image is the commit result, not
`cachedID` (which leaks only into the committed config's `Image` field). -/
def c8out : BF :=
  { image := toL "img-ctr",
    config := { Image := toL "cachedID" },
    hasContext := true, contextPath := toL "/ctx",
    tmpContainers := [toL "ctr"], tmpImages := [toL "img-ctr"],
    committed := [{ Image := toL "cachedID" }] }

/-!
## Generic lemmas about the string helpers
-/

theorem splitN2_no_sep {sep : Char} : ∀ (s : Str), sep ∉ s → splitN2 sep s = (s, none)
  | [], _ => rfl
  | c :: rest, h => by
    have hc : c ≠ sep := fun he => h (he ▸ List.mem_cons_self c rest)
    have ih := splitN2_no_sep rest (fun hm => h (List.mem_cons_of_mem c hm))
    simp [splitN2, hc, ih]

theorem splitN2_first_sep {sep : Char} :
    ∀ (w rest : Str), sep ∉ w → splitN2 sep (w ++ sep :: rest) = (w, some rest)
  | [], rest, _ => by simp [splitN2]
  | c :: w', rest, h => by
    have hc : c ≠ sep := fun he => h (he ▸ List.mem_cons_self c w')
    have ih := splitN2_first_sep w' rest (fun hm => h (List.mem_cons_of_mem c hm))
    simp [splitN2, hc, ih]

theorem dropWhile_no {p : Char → Bool} : ∀ {s : Str}, (∀ c ∈ s, p c = false) →
    s.dropWhile p = s
  | [], _ => rfl
  | c :: rest, h => by
    have hc : p c = false := h c (List.mem_cons_self c rest)
    simp [List.dropWhile, hc]

theorem trimCutset_no {cut : List Char} {s : Str}
    (h : ∀ c ∈ s, cut.contains c = false) : trimCutset cut s = s := by
  unfold trimCutset
  rw [dropWhile_no h]
  rw [dropWhile_no (fun c hc => h c (List.mem_reverse.mp hc))]
  exact List.reverse_reverse s

theorem splitAll_ne_nil {sep : Char} : ∀ (s : Str), splitAll sep s ≠ []
  | [] => by simp [splitAll]
  | c :: rest => by
    by_cases hc : c = sep
    · simp [splitAll, hc]
    · have := @splitAll_ne_nil sep rest
      simp only [splitAll, hc, if_false]
      match h : splitAll sep rest with
      | [] => exact absurd h this
      | x :: xs => simp

theorem splitAll_no_sep {sep : Char} : ∀ (s : Str), sep ∉ s → splitAll sep s = [s]
  | [], _ => rfl
  | c :: rest, h => by
    have hc : ¬(c = sep) := fun he => h (he ▸ List.mem_cons_self c rest)
    have ih := splitAll_no_sep rest (fun hm => h (List.mem_cons_of_mem c hm))
    simp [splitAll, hc, ih]

theorem splitAll_first_sep {sep : Char} :
    ∀ (l t : Str), sep ∉ l → splitAll sep (l ++ sep :: t) = l :: splitAll sep t
  | [], t, _ => by simp [splitAll]
  | c :: l', t, h => by
    have hc : ¬(c = sep) := fun he => h (he ▸ List.mem_cons_self c l')
    have ih := splitAll_first_sep l' t (fun hm => h (List.mem_cons_of_mem c hm))
    show splitAll sep (c :: (l' ++ sep :: t)) = (c :: l') :: splitAll sep t
    rw [splitAll, if_neg hc, ih]

theorem mem_splitAll_no_sep {sep : Char} :
    ∀ {s : Str} {l : Str}, l ∈ splitAll sep s → sep ∉ l := by
  intro s
  induction s with
  | nil =>
    intro l hl
    simp [splitAll] at hl
    simp [hl]
  | cons c rest ih =>
    intro l hl
    by_cases hc : c = sep
    · simp [splitAll, hc] at hl
      rcases hl with h | h
      · simp [h]
      · exact ih h
    · simp only [splitAll, hc, if_false] at hl
      rcases hrest : splitAll sep rest with _ | ⟨x, xs⟩
      · exact absurd hrest (splitAll_ne_nil rest)
      · rw [hrest] at hl
        rcases List.mem_cons.mp hl with h | h
        · subst h
          intro hmem
          rcases List.mem_cons.mp hmem with h1 | h1
          · exact hc h1.symm
          · exact ih (hrest ▸ List.mem_cons_self x xs) h1
        · exact ih (hrest ▸ List.mem_cons_of_mem x h)

theorem splitAll_joinSep {sep : Char} :
    ∀ (ls : List Str), ls ≠ [] → (∀ l ∈ ls, sep ∉ l) →
      splitAll sep (joinSep sep ls) = ls
  | [], h, _ => absurd rfl h
  | [l], _, hfree => by
    simp only [joinSep]
    exact splitAll_no_sep l (hfree l (List.mem_singleton.mpr rfl))
  | l :: l2 :: rest, _, hfree => by
    have hl : sep ∉ l := hfree l (List.mem_cons_self _ _)
    have ih := splitAll_joinSep (l2 :: rest) (by simp)
      (fun x hx => hfree x (List.mem_cons_of_mem l hx))
    simp only [joinSep]
    rw [splitAll_first_sep l _ hl, ih]

/-!
## List lemmas for the heap model
-/

theorem getD_set_self {α : Type} :
    ∀ (l : List α) (i : Nat) (a d : α), i < l.length → (l.set i a).getD i d = a
  | [], i, _, _, h => absurd h (by simp)
  | _ :: _, 0, _, _, _ => rfl
  | _ :: xs, i + 1, a, d, h => by
    show (xs.set i a).getD i d = a
    exact getD_set_self xs i a d (Nat.lt_of_succ_lt_succ h)

theorem getD_set_ne {α : Type} :
    ∀ (l : List α) (i j : Nat) (a d : α), j ≠ i → (l.set i a).getD j d = l.getD j d
  | [], _, _, _, _, _ => by simp [List.set]
  | x :: xs, 0, 0, a, d, hne => absurd rfl hne
  | x :: xs, 0, j + 1, a, d, _ => rfl
  | x :: xs, i + 1, 0, a, d, _ => rfl
  | x :: xs, i + 1, j + 1, a, d, hne => by
    show (xs.set i a).getD j d = xs.getD j d
    exact getD_set_ne xs i j a d (fun he => hne (he ▸ rfl))

/-!
## C1 — context sandbox validation (`checkPathForAddition`)
-/

/-- C1: the claim states that every source path accepted by
`checkPathForAddition` resolves to a proper descendant of the context root
(`contextRoot` followed by a path separator) and that any resolution leaving
the sandbox is rejected.  The code only checks `strings.HasPrefix(resolved,
contextRoot)`: with context root `/tmp/ctx`, a symlink `lnk` resolving to
`/tmp/ctxevil/secret` — outside the sandbox — is accepted, because the
sibling directory's name extends the context root as a string.  This
contradicts the function's own error message ("Forbidden path outside the
build context"): the code is the bug, the claim states the intent. -/
theorem checkPathForAddition_escape_eval :
    checkPathForAddition escWorld (toL "/tmp/ctx") (toL "lnk") = .ok ()
    ∧ escWorld.resolve (pathJoin [toL "/tmp/ctx", toL "lnk"]) =
        some (toL "/tmp/ctxevil/secret")
    ∧ hasPfx (toL "/tmp/ctxevil/secret") (toL "/tmp/ctx/") = false := by
  refine ⟨by decide, by decide, by decide⟩

/-!
## C2 — FROM aliases the image's stored config
-/

/-- C2 (counterexample): the claim says the build config is a deep copy of
the resolved image's stored config, so clearing `OnBuild` before running
triggers leaves the image's stored record unchanged.  In the code
`b.config = image.Config` is a pointer assignment: after `CmdFrom`'s setup
the image's own config cell has lost its ONBUILD triggers. -/
theorem cmdFrom_alias_counterexample :
    (aliasState.heap.getD 0 {}).OnBuild = [toL "RUN touch /x"]
    ∧ ((cmdFromSetup aliasImg aliasState).1.heap.getD 0 {}).OnBuild = []
    ∧ (cmdFromSetup aliasImg aliasState).1.bConfigIdx = 0
    ∧ (cmdFromSetup aliasImg aliasState).2 = [toL "RUN touch /x"] := by
  refine ⟨by decide, by decide, by decide, by decide⟩

/-- C2 (amended): after `CmdFrom`'s setup the build config is the very cell
holding the image's stored config (aliased, not copied): `bConfigIdx` equals
the image's config pointer, the extracted trigger list is the cell's
original `OnBuild`, the cell's `OnBuild` is cleared in place (visible
through the image), its `Env` is seeded with the single default `PATH`
entry exactly when it was empty, and all other heap cells are untouched. -/
theorem cmdFrom_alias_spec (img : ImageRec) (s : FromState) (i : Nat)
    (hidx : img.configIdx = some i) (hlen : i < s.heap.length) :
    (cmdFromSetup img s).1.bConfigIdx = i
    ∧ (cmdFromSetup img s).1.bImage = img.ID
    ∧ (cmdFromSetup img s).2 = (s.heap.getD i {}).OnBuild
    ∧ ((cmdFromSetup img s).1.heap.getD i {}).OnBuild = []
    ∧ ((cmdFromSetup img s).1.heap.getD i {}).Env =
        (if (s.heap.getD i {}).Env = [] then [defaultPathEntry]
         else (s.heap.getD i {}).Env)
    ∧ (∀ j, j ≠ i → (cmdFromSetup img s).1.heap.getD j ({} : Config) = s.heap.getD j {})
    ∧ (cmdFromSetup img s).1.heap.length = s.heap.length := by
  have hres : cmdFromSetup img s =
      ({heap :=
          (if (s.heap.getD i {}).Env = []
           then s.heap.set i {s.heap.getD i {} with Env := [defaultPathEntry]}
           else s.heap).set i
            {(if (s.heap.getD i {}).Env = []
              then {s.heap.getD i {} with Env := [defaultPathEntry]}
              else s.heap.getD i {}) with OnBuild := []},
        bImage := img.ID, bConfigIdx := i},
       (s.heap.getD i {}).OnBuild) := by
    unfold cmdFromSetup
    rw [hidx]
    by_cases hE : (s.heap.getD i {}).Env = []
    · simp only [if_pos hE]
    · simp only [if_neg hE]
  rw [hres]
  have hlen1 : (if (s.heap.getD i {}).Env = []
      then s.heap.set i {s.heap.getD i {} with Env := [defaultPathEntry]}
      else s.heap).length = s.heap.length := by
    split
    · exact List.length_set s.heap _ _
    · rfl
  refine ⟨rfl, rfl, rfl, ?_, ?_, ?_, ?_⟩
  · rw [getD_set_self _ _ _ _ (hlen1 ▸ hlen)]
  · rw [getD_set_self _ _ _ _ (hlen1 ▸ hlen)]
    split
    · rfl
    · rfl
  · intro j hj
    rw [getD_set_ne _ _ _ _ _ hj]
    split
    · rw [getD_set_ne _ _ _ _ _ hj]
    · rfl
  · rw [List.length_set]
    exact hlen1

/-- Witness for `cmdFrom_alias_spec` at the concrete image and heap. -/
theorem cmdFrom_alias_spec_witness :
    aliasImg.configIdx = some 0 ∧ 0 < aliasState.heap.length
    ∧ ((cmdFromSetup aliasImg aliasState).1.bConfigIdx = 0
      ∧ (cmdFromSetup aliasImg aliasState).1.bImage = aliasImg.ID
      ∧ (cmdFromSetup aliasImg aliasState).2 = (aliasState.heap.getD 0 {}).OnBuild
      ∧ ((cmdFromSetup aliasImg aliasState).1.heap.getD 0 {}).OnBuild = []
      ∧ ((cmdFromSetup aliasImg aliasState).1.heap.getD 0 {}).Env =
          (if (aliasState.heap.getD 0 {}).Env = [] then [defaultPathEntry]
           else (aliasState.heap.getD 0 {}).Env)
      ∧ (∀ j, j ≠ 0 → (cmdFromSetup aliasImg aliasState).1.heap.getD j ({} : Config) =
          aliasState.heap.getD j {})
      ∧ (cmdFromSetup aliasImg aliasState).1.heap.length = aliasState.heap.length) :=
  ⟨by decide, by decide, cmdFrom_alias_spec aliasImg aliasState 0 (by decide) (by decide)⟩

/-!
## C10 — `CmdWorkdir` on an empty argument
-/

/-- C10: the claim states `CmdWorkdir` is total — for every argument it
updates the working directory or returns an error, with no out-of-range
access.  Go indexes `workdir[0]` unconditionally, so the empty argument —
reachable because a stored trigger `"WORKDIR "` dispatches with
arguments trimmed to the empty string — is a runtime panic, not an update
or an error: the claim states the intent, the code crashes. -/
theorem cmdWorkdir_empty_argument_panics :
    (∀ (w : World) (b : BF), cmdWorkdir w [] b = GoRes.panic)
    ∧ buildStepAction (toL "WORKDIR ") = .dispatch (toL "workdir") [] :=
  ⟨fun _ _ => rfl, by decide⟩

/-!
## C4 — comment stripping in recipe preprocessing
-/

/-- C4 (counterexample): the claim says every line whose first
non-whitespace character is `#` is stripped as a comment and never
dispatched.  `stripComments` only drops lines whose first byte is `#`: the
indented comment line `"  #c"` survives stripping, and after the driver's
per-line trimming the line `"\t#c"` is dispatched to `BuildStep`, where it
even fails the build as an invalid-format line. -/
theorem stripComments_indented_counterexample :
    stripComments (toL "  #c\nFROM x") = toL "  #c\nFROM x"
    ∧ logicalLines (toL "\t#c\nFROM x") = [toL "#c", toL "FROM x"]
    ∧ buildStepAction (toL "#c") = .invalidFormat := by
  refine ⟨by decide, by decide, by decide⟩

/-- C4 (amended): preprocessing strips exactly the lines that are empty or
whose first byte is `#` (an indented comment line is kept and later
dispatched), and stripping happens before line joining
(`preprocess = joinContinuations ∘ stripComments`): the lines surviving
`stripComments` are precisely the `keepLine`-filtered input lines. -/
theorem stripComments_first_byte_spec (raw : Str)
    (h : (splitAll '\n' raw).filter keepLine ≠ []) :
    splitAll '\n' (stripComments raw) = (splitAll '\n' raw).filter keepLine
    ∧ preprocess raw = joinContinuations (stripComments raw) := by
  constructor
  · unfold stripComments
    apply splitAll_joinSep _ h
    intro l hl
    exact mem_splitAll_no_sep (List.mem_of_mem_filter hl)
  · rfl

/-- Witness for `stripComments_first_byte_spec` on a concrete recipe. -/
theorem stripComments_first_byte_spec_witness :
    (splitAll '\n' (toL "#a\nFROM x")).filter keepLine ≠ []
    ∧ (splitAll '\n' (stripComments (toL "#a\nFROM x")) =
        (splitAll '\n' (toL "#a\nFROM x")).filter keepLine
      ∧ preprocess (toL "#a\nFROM x") =
        joinContinuations (stripComments (toL "#a\nFROM x"))) :=
  ⟨by decide, stripComments_first_byte_spec (toL "#a\nFROM x") (by decide)⟩

/-!
## C3 — env interpolation
-/

/-- C3 (counterexample): the claim says an occurrence of `$NAME` immediately
preceded by an unescaped backslash is left as a literal.  The loop replaces
every textual occurrence of a matched token via a global `strings.Replace`:
in `"\$FOO $FOO"` the second (unescaped) occurrence is matched, and the
replacement also rewrites the escaped first occurrence, yielding
`"\bar bar"` instead of the claimed `"\$FOO bar"`. -/
theorem replaceEnvMatches_escaped_counterexample :
    replaceEnvMatches [toL "FOO=bar"] (toL "\\$FOO $FOO") = .ok (toL "\\bar bar")
    ∧ toL "\\bar bar" ≠ toL "\\$FOO bar" := by
  refine ⟨by decide, by decide⟩

/-- C3 (amended): substitution replaces each matched `$NAME`/`${NAME}` token
with the value of the first `config.Env` entry whose key equals NAME, but it
does so by global textual replacement, so an occurrence preceded by an
unescaped backslash is rewritten too whenever the same token also occurs
unescaped in the value; an escaped occurrence is left as a literal only when
the token has no unescaped occurrence, and a token whose NAME matches no Env
entry is left untouched.  Stated for any environment resolving `FOO` and not
resolving `BAZ`, on the three representative argument shapes. -/
theorem replaceEnvMatches_global_replace (v : Str) (env : List Str)
    (h1 : lookupEnvValue env (toL "FOO") = .ok (some v))
    (h2 : lookupEnvValue env (toL "BAZ") = .ok none) :
    replaceEnvMatches env (toL "\\$FOO $FOO") = .ok ('\\' :: (v ++ ' ' :: v))
    ∧ replaceEnvMatches env (toL "\\$FOO") = .ok (toL "\\$FOO")
    ∧ replaceEnvMatches env (toL "$BAZ") = .ok (toL "$BAZ") := by
  refine ⟨?_, ?_, ?_⟩
  · have hf : findAllString (toL "\\$FOO $FOO") = [toL " $FOO"] := by decide
    have hm : dropUntilDollar (toL " $FOO") = toL "$FOO" := by decide
    have hkey : trimCutset ['$', '{', '}'] (toL "$FOO") = toL "FOO" := by decide
    have hrep : replaceAllStr (toL "\\$FOO $FOO") (toL "$FOO") v =
        '\\' :: (v ++ ' ' :: (v ++ [])) := rfl
    unfold replaceEnvMatches
    rw [hf]
    simp only [List.foldl, replaceOneMatch, hm, hkey, h1, hrep]
    simp
  · have hf : findAllString (toL "\\$FOO") = [] := by decide
    unfold replaceEnvMatches
    rw [hf]
    rfl
  · have hf : findAllString (toL "$BAZ") = [toL "$BAZ"] := by decide
    have hm : dropUntilDollar (toL "$BAZ") = toL "$BAZ" := by decide
    have hkey : trimCutset ['$', '{', '}'] (toL "$BAZ") = toL "BAZ" := by decide
    unfold replaceEnvMatches
    rw [hf]
    simp only [List.foldl, replaceOneMatch, hm, hkey, h2]

/-- Witness for `replaceEnvMatches_global_replace` at a concrete
environment. -/
theorem replaceEnvMatches_global_replace_witness :
    lookupEnvValue [toL "A=1", toL "FOO=bar"] (toL "FOO") = .ok (some (toL "bar"))
    ∧ lookupEnvValue [toL "A=1", toL "FOO=bar"] (toL "BAZ") = .ok none
    ∧ (replaceEnvMatches [toL "A=1", toL "FOO=bar"] (toL "\\$FOO $FOO") =
          .ok ('\\' :: (toL "bar" ++ ' ' :: toL "bar"))
      ∧ replaceEnvMatches [toL "A=1", toL "FOO=bar"] (toL "\\$FOO") = .ok (toL "\\$FOO")
      ∧ replaceEnvMatches [toL "A=1", toL "FOO=bar"] (toL "$BAZ") = .ok (toL "$BAZ")) :=
  ⟨by decide, by decide,
    replaceEnvMatches_global_replace (toL "bar") [toL "A=1", toL "FOO=bar"]
      (by decide) (by decide)⟩

/-!
## C9 — `BuildStep` on argument-less lines
-/

/-- C9: a logical recipe line containing no space is rejected by `BuildStep`
with an invalid-format error before any dispatch — even when the bare word
is a recognized instruction such as `RUN` — whereas an unrecognized
instruction that has an argument is merely warned about and skipped. -/
theorem buildStep_bare_instruction_invalid :
    (∀ expr : Str, ' ' ∉ expr → buildStepAction expr = .invalidFormat)
    ∧ buildStepAction (toL "RUN") = .invalidFormat
    ∧ hasCmdMethod (toL "run") = true
    ∧ (∀ w rest : Str, w ≠ [] → ' ' ∉ w → hasCmdMethod (toLowerStr w) = false →
        buildStepAction (w ++ ' ' :: rest) = .skipUnknown (toLowerStr w)) := by
  refine ⟨?_, by decide, by decide, ?_⟩
  · intro expr h
    unfold buildStepAction
    rw [splitN2_no_sep _ h]
  · intro w rest hne hnsp hunk
    match w, hne, hnsp, hunk with
    | c :: w', _, hnsp, hunk =>
      have htrim : trimCutset [' '] (c :: w') = c :: w' := by
        apply trimCutset_no
        intro x hx
        simp only [List.contains_cons, List.contains_nil, Bool.or_false]
        exact beq_eq_false_iff_ne.mpr (fun he => hnsp (he ▸ hx))
      unfold buildStepAction
      rw [splitN2_first_sep _ rest hnsp]
      simp only [toLowerStr, List.map] at hunk ⊢
      simp [htrim, hunk, toLowerStr]

/-- Witness for `buildStep_bare_instruction_invalid` at concrete lines. -/
theorem buildStep_bare_instruction_invalid_witness :
    ((' ' ∉ toL "ADD") ∧ buildStepAction (toL "ADD") = .invalidFormat)
    ∧ (toL "FOOBAR" ≠ [] ∧ buildStepAction (toL "FOOBAR" ++ ' ' :: toL "x") =
        .skipUnknown (toLowerStr (toL "FOOBAR"))) := by
  constructor
  · exact ⟨by decide, buildStep_bare_instruction_invalid.1 (toL "ADD") (by decide)⟩
  · exact ⟨by decide, buildStep_bare_instruction_invalid.2.2.2 (toL "FOOBAR") (toL "x")
      (by decide) (by decide) (by decide)⟩

/-!
## Frame lemmas for `probeCache` and `commit`
-/

theorem probeCache_fields (w : World) (b : BF) :
    (probeCache w b).2.config = b.config
    ∧ (probeCache w b).2.committed = b.committed
    ∧ (probeCache w b).2.cmdSet = b.cmdSet
    ∧ (probeCache w b).2.tmpContainers = b.tmpContainers := by
  unfold probeCache
  split
  · split <;> simp
  · simp

/-- A metadata-only `commit` preserves `config` (its `Cmd` is restored by the
deferred function, `Image` aside), preserves `cmdSet`, and either commits
nothing (cache hit) or appends exactly one config whose `Cmd` is the given
`autoCmd` and whose other fields are the current config's. -/
theorem commit_meta_fields (w : World) (autoCmd : List Str) (comment : Str)
    (b b' : BF) (hok : commit w [] autoCmd comment b = .ok b') :
    b'.config.Entrypoint = b.config.Entrypoint
    ∧ b'.config.Env = b.config.Env
    ∧ b'.config.Cmd = b.config.Cmd
    ∧ b'.config.OnBuild = b.config.OnBuild
    ∧ b'.config.WorkingDir = b.config.WorkingDir
    ∧ b'.cmdSet = b.cmdSet
    ∧ (b'.committed = b.committed ∨
        ∃ c, b'.committed = b.committed ++ [c] ∧ c.Cmd = autoCmd
          ∧ c.Entrypoint = b.config.Entrypoint ∧ c.Env = b.config.Env
          ∧ c.OnBuild = b.config.OnBuild) := by
  simp only [commit] at hok
  by_cases himg : b.image = []
  · rw [if_pos himg] at hok
    exact absurd hok (by simp)
  · rw [if_neg himg] at hok
    simp only [if_true] at hok
    split at hok
    next b1 heq =>
      have hbp : (probeCache w _).2 = b1 := congrArg Prod.snd heq
      obtain ⟨hc, hcm, hcs, _⟩ := probeCache_fields w
        {b with config :=
          {b.config with Image := b.image, Cmd := nopCmd comment}}
      rw [hbp] at hc hcm hcs
      injection hok with hok
      subst hok
      refine ⟨?_, ?_, ?_, ?_, ?_, ?_, Or.inl ?_⟩ <;> simp [hc, hcm, hcs]
    next b1 heq =>
      have hbp : (probeCache w _).2 = b1 := congrArg Prod.snd heq
      obtain ⟨hc, hcm, hcs, _⟩ := probeCache_fields w
        {b with config :=
          {b.config with Image := b.image, Cmd := nopCmd comment}}
      rw [hbp] at hc hcm hcs
      simp only [commitFinish] at hok
      injection hok with hok
      subst hok
      refine ⟨?_, ?_, ?_, ?_, ?_, ?_,
        Or.inr ⟨{b1.config with Cmd := autoCmd}, ?_, ?_, ?_, ?_, ?_⟩⟩ <;>
        simp [hc, hcm, hcs]

/-!
## C5 — ENTRYPOINT clears CMD when no CMD appeared in this recipe
-/

/-- C5: when `cmdExplicitlySet` is false, `CmdEntrypoint` assigns the parsed
argument to `config.Entrypoint`, clears `config.Cmd` before committing, and
any config committed by the step carries an empty `Cmd` — so ENTRYPOINT over
a base image whose config carried a `Cmd`, with no CMD in the current
recipe, commits a config with empty `Cmd`. -/
theorem cmdEntrypoint_clears_cmd (w : World) (parse : Str → Option (List Str))
    (args : Str) (b b' : BF)
    (hset : b.cmdSet = false)
    (hok : cmdEntrypoint w parse args b = .ok b') :
    b'.config.Entrypoint = buildCmdFromJson parse args
    ∧ b'.config.Cmd = []
    ∧ (b'.committed = b.committed ∨
        ∃ c, b'.committed = b.committed ++ [c] ∧ c.Cmd = []
          ∧ c.Entrypoint = buildCmdFromJson parse args) := by
  simp only [cmdEntrypoint, hset, Bool.false_eq_true, if_false] at hok
  obtain ⟨hE, _, hCmd, _, _, _, hComm⟩ := commit_meta_fields _ _ _ _ _ hok
  simp only at hE hCmd hComm
  refine ⟨by simp [hE], by simp [hCmd], ?_⟩
  rcases hComm with h | ⟨c, hc1, hc2, hc3, _⟩
  · exact Or.inl (by simpa using h)
  · exact Or.inr ⟨c, by simpa using hc1, by simpa using hc2, by simpa using hc3⟩

/-- Witness for `cmdEntrypoint_clears_cmd`: ENTRYPOINT over a base whose
config carries `Cmd = ["b"]`, with no CMD in this recipe. -/
theorem cmdEntrypoint_clears_cmd_witness :
    entryB.cmdSet = false
    ∧ (c5out.config.Entrypoint = buildCmdFromJson parseA (toL "x")
      ∧ c5out.config.Cmd = []
      ∧ (c5out.committed = entryB.committed ∨
          ∃ c, c5out.committed = entryB.committed ++ [c] ∧ c.Cmd = []
            ∧ c.Entrypoint = buildCmdFromJson parseA (toL "x"))) :=
  ⟨rfl, cmdEntrypoint_clears_cmd cxWorld parseA (toL "x") entryB c5out rfl (by decide)⟩

/-!
## C7 — forbidden ONBUILD triggers
-/

/-- C7: a trigger whose first word is (case-insensitively) `ONBUILD`,
`MAINTAINER` or `FROM` is rejected with an error both by the ONBUILD
instruction handler (before `config.OnBuild` is touched or anything is
committed — the error is returned before those statements run) and by the
trigger-execution loop of FROM (before the trigger is dispatched, whatever
the dispatcher does); in both places the error aborts the step. -/
theorem onbuild_forbidden_trigger_rejected (w : World) (b : BF) (t : Str)
    (hforb : isForbiddenTrigger t = true) :
    (∃ m, cmdOnbuild w t b = .err m)
    ∧ (∀ (exec : Str → BF → GoRes BF) (rest : List Str),
        ∃ m, processTriggers exec (t :: rest) b = .err m) := by
  have hMO : ¬(toL "MAINTAINER" = toL "ONBUILD") := by decide
  have hFO : ¬(toL "FROM" = toL "ONBUILD") := by decide
  have h3 : triggerInstruction t = toL "ONBUILD"
      ∨ triggerInstruction t = toL "MAINTAINER"
      ∨ triggerInstruction t = toL "FROM" := by
    have h0 : (triggerInstruction t = toL "ONBUILD"
        ∨ triggerInstruction t = toL "MAINTAINER")
        ∨ triggerInstruction t = toL "FROM" := by
      simpa [isForbiddenTrigger] using hforb
    tauto
  constructor
  · rcases h3 with h | h | h
    · exact ⟨toL "Chaining ONBUILD via ONBUILD ONBUILD is not allowed",
        by simp [cmdOnbuild, h]⟩
    · exact ⟨toL "MAINTAINER" ++ toL " is not allowed as an ONBUILD trigger",
        by simp [cmdOnbuild, h, hMO]⟩
    · exact ⟨toL "FROM" ++ toL " is not allowed as an ONBUILD trigger",
        by simp [cmdOnbuild, h, hFO]⟩
  · intro exec rest
    rcases h3 with h | h | h
    · exact ⟨toL "Source image contains forbidden chained ONBUILD ONBUILD trigger: " ++ t,
        by simp [processTriggers, h]⟩
    · exact ⟨toL "Source image contains forbidden " ++ toL "MAINTAINER" ++ toL " trigger: " ++ t,
        by simp [processTriggers, h, hMO]⟩
    · exact ⟨toL "Source image contains forbidden " ++ toL "FROM" ++ toL " trigger: " ++ t,
        by simp [processTriggers, h, hFO]⟩

/-- Witness for `onbuild_forbidden_trigger_rejected`, also showing the
check is case-insensitive (`onbuild` in lower case is rejected). -/
theorem onbuild_forbidden_trigger_rejected_witness :
    isForbiddenTrigger (toL "onbuild RUN date") = true
    ∧ ((∃ m, cmdOnbuild cxWorld (toL "onbuild RUN date") envCxB = .err m)
      ∧ (∀ (exec : Str → BF → GoRes BF) (rest : List Str),
          ∃ m, processTriggers exec (toL "onbuild RUN date" :: rest) envCxB = .err m)) :=
  ⟨by decide,
    onbuild_forbidden_trigger_rejected cxWorld envCxB (toL "onbuild RUN date") (by decide)⟩

/-!
## C6 — ENV key uniqueness
-/

/-- C6 (counterexample): the claim asserts the at-most-one-entry-per-key
invariant is preserved for every key and value argument.  A key argument
containing `=` breaks it: `ENV A=B C` appends the entry `A=B=C`, whose key
(the part before the first `=`) is `A`, next to the existing `A=x`. -/
theorem cmdEnv_duplicate_key_counterexample :
    atMostOnePerKey envCxB.config.Env
    ∧ cmdEnv cxWorld (toL "A=B C") envCxB = .ok c6cxOut
    ∧ ¬ atMostOnePerKey c6cxOut.config.Env := by
  refine ⟨by decide, by decide, by decide⟩

theorem envKey_wellformed {key : Str} (rv : Str) (h : '=' ∉ key) :
    envKey (key ++ '=' :: rv) = key := by
  unfold envKey
  rw [splitN2_first_sep _ rv h]

theorem map_envKey_set_found {key e' : Str} :
    ∀ {env : List Str} {i : Nat}, findEnvKeyIdx key env = some i → envKey e' = key →
      (env.set i e').map envKey = env.map envKey := by
  intro env
  induction env with
  | nil => intro i h _; simp [findEnvKeyIdx] at h
  | cons e rest ih =>
    intro i h he'
    unfold findEnvKeyIdx at h
    by_cases hk : envKey e = key
    · rw [if_pos hk] at h
      injection h with h
      subst h
      simp [List.set, he', hk]
    · rw [if_neg hk] at h
      rcases hr : findEnvKeyIdx key rest with _ | j
      · rw [hr] at h
        simp at h
      · rw [hr] at h
        simp at h
        subst h
        simp only [List.set, List.map]
        rw [ih hr he']

theorem not_mem_keys_of_not_found {key : Str} :
    ∀ {env : List Str}, findEnvKeyIdx key env = none → key ∉ env.map envKey := by
  intro env
  induction env with
  | nil => intro _ h; simp at h
  | cons e rest ih =>
    intro h hmem
    unfold findEnvKeyIdx at h
    by_cases hk : envKey e = key
    · rw [if_pos hk] at h
      exact Option.noConfusion h
    · rw [if_neg hk] at h
      rcases List.mem_cons.mp hmem with h1 | h1
      · exact hk h1.symm
      · rcases hr : findEnvKeyIdx key rest with _ | j
        · exact ih hr h1
        · rw [hr] at h
          simp at h

theorem envUpdate_preserves_unique {env : List Str} {key : Str} (rv : Str)
    (hkey : '=' ∉ key) (hinv : atMostOnePerKey env) :
    atMostOnePerKey (envUpdate env (findEnvKeyIdx key env) (key ++ '=' :: rv)) := by
  unfold atMostOnePerKey at hinv ⊢
  rcases hf : findEnvKeyIdx key env with _ | i
  · unfold envUpdate
    rw [List.map_append]
    simp only [List.map]
    rw [List.nodup_append]
    refine ⟨hinv, List.nodup_singleton _, ?_⟩
    intro x hx hmem
    rw [envKey_wellformed rv hkey] at hmem
    simp at hmem
    subst hmem
    exact not_mem_keys_of_not_found hf hx
  · unfold envUpdate
    rw [map_envKey_set_found hf (envKey_wellformed rv hkey)]
    exact hinv

/-- C6 (amended): `CmdEnv` replaces the existing entry in place (preserving
its position) when the key is already present and appends otherwise; for
every key argument that does not itself contain `=` (a key with `=`, such
as `ENV A=B C`, produces an entry whose effective key is its prefix before
the first `=` and can duplicate an existing key), the
at-most-one-entry-per-key invariant is preserved. -/
theorem cmdEnv_unique_key_invariant (w : World) (args t0 t1 : Str) (b b' : BF)
    (hsplit : splitN2 ' ' args = (t0, some t1))
    (hok : cmdEnv w args b = .ok b')
    (hkey : '=' ∉ trimCutset [' ', '\t'] t0)
    (hinv : atMostOnePerKey b.config.Env) :
    atMostOnePerKey b'.config.Env
    ∧ (∃ rv, replaceEnvMatches b.config.Env (trimCutset [' ', '\t'] t1) = .ok rv
        ∧ b'.config.Env =
            envUpdate b.config.Env
              (findEnvKeyIdx (trimCutset [' ', '\t'] t0) b.config.Env)
              (trimCutset [' ', '\t'] t0 ++ '=' :: rv)) := by
  simp only [cmdEnv, hsplit] at hok
  split at hok
  · simp at hok
  · simp at hok
  next rv heq =>
    obtain ⟨_, hEnv, _, _, _, _, _⟩ := commit_meta_fields _ _ _ _ _ hok
    refine ⟨?_, ⟨rv, heq, by simp [hEnv]⟩⟩
    rw [hEnv]
    exact envUpdate_preserves_unique rv hkey hinv

/-- Witness for `cmdEnv_unique_key_invariant` on `ENV B 2` over a state
already holding `A=x`. -/
theorem cmdEnv_unique_key_invariant_witness :
    splitN2 ' ' (toL "B 2") = (toL "B", some (toL "2"))
    ∧ ('=' ∉ trimCutset [' ', '\t'] (toL "B"))
    ∧ atMostOnePerKey envCxB.config.Env
    ∧ (atMostOnePerKey c6out.config.Env
      ∧ (∃ rv, replaceEnvMatches envCxB.config.Env (trimCutset [' ', '\t'] (toL "2")) = .ok rv
          ∧ c6out.config.Env =
              envUpdate envCxB.config.Env
                (findEnvKeyIdx (trimCutset [' ', '\t'] (toL "B")) envCxB.config.Env)
                (trimCutset [' ', '\t'] (toL "B") ++ '=' :: rv))) :=
  ⟨by decide, by decide, by decide,
    cmdEnv_unique_key_invariant cxWorld (toL "B 2") (toL "B") (toL "2") envCxB c6out
      (by decide) (by decide) (by decide) (by decide)⟩

theorem probeCache_snd_config (w : World) (b : BF) :
    (probeCache w b).2.config = b.config := (probeCache_fields w b).1

theorem probeCache_snd_committed (w : World) (b : BF) :
    (probeCache w b).2.committed = b.committed := (probeCache_fields w b).2.1

theorem probeCache_snd_tmpContainers (w : World) (b : BF) :
    (probeCache w b).2.tmpContainers = b.tmpContainers :=
  (probeCache_fields w b).2.2.2

theorem probeCache_snd_tmpImages (w : World) (b : BF) :
    (probeCache w b).2.tmpImages = b.tmpImages := by
  unfold probeCache
  split
  · split <;> simp
  · simp

/-!
## C8 — an empty content hash never uses a cache hit
-/

/-- C8: in the COPY/ADD cache probe, when the computed content hash is
empty (a local file absent from the context checksum map), a returned cache
hit is not used to skip the step: the step does not take the cache
short-circuit, and instead creates an intermediate container, materializes
the files and commits — the final image is the freshly committed one, the
container and the committed config are recorded. -/
theorem runContextCommand_empty_hash_ignores_hit
    (w : World) (b : BF) (args t0 t1 orig dest origT cmdName : Str)
    (aR aD : Bool) (b' : BF)
    (hsplit : splitN2 ' ' args = (t0, some t1))
    (horig : replaceEnvMatches b.config.Env (trimCutset [' ', '\t'] t0) = .ok orig)
    (hdest : replaceEnvMatches b.config.Env (trimCutset [' ', '\t'] t1) = .ok dest)
    (hurl : w.isURL orig = false)
    (hcache : b.utilizeCache = true)
    (hhash : contextHash w b.contextPath b.sums orig [] = .ok ([], origT))
    (hcid : ∀ c, w.createID c ≠ [])
    (hok : runContextCommand w args aR aD cmdName b = .ok b') :
    ∃ cid c, b'.tmpContainers = b.tmpContainers ++ [cid]
      ∧ b'.committed = b.committed ++ [c]
      ∧ b'.image = w.commitID cid c
      ∧ b'.tmpImages = b.tmpImages ++ [w.commitID cid c] := by
  simp only [runContextCommand, hsplit, horig, hdest, hurl, Bool.false_eq_true,
    false_and, if_false, remoteStep, cacheStepRCC, hcache, if_true, hhash,
    List.isEmpty_nil, Bool.not_true, Bool.and_false] at hok
  by_cases hctx : b.hasContext = false
  · rw [if_pos hctx] at hok
    simp at hok
  · rw [if_neg hctx] at hok
    split at hok
    · simp at hok
    · simp at hok
    · split at hok
      · simp at hok
      · split at hok
        · simp at hok
        · simp at hok
        · next b2 heqc =>
          simp only [commit] at heqc
          split at heqc
          · simp at heqc
          · rw [if_neg (hcid _)] at heqc
            simp only [commitFinish] at heqc
            injection heqc with heqc
            subst heqc
            injection hok with hA
            simp only [probeCache_snd_config, probeCache_snd_committed,
              probeCache_snd_tmpContainers, probeCache_snd_tmpImages] at hA
            subst hA
            exact ⟨_, _, rfl, rfl, rfl, rfl⟩

/-- Witness for `runContextCommand_empty_hash_ignores_hit`: the store always
reports a hit (`cachedID`), the file `foo` is absent from the context sums
(empty hash), yet the step creates container `ctr` and commits `img-ctr`. -/
theorem runContextCommand_empty_hash_ignores_hit_witness :
    hitWorld.cacheLookup rccB.image rccB.config = some (toL "cachedID")
    ∧ contextHash hitWorld rccB.contextPath rccB.sums (toL "foo") [] = .ok ([], toL "foo")
    ∧ runContextCommand hitWorld (toL "foo /dst") true true (toL "ADD") rccB = .ok c8out
    ∧ (∃ cid c, c8out.tmpContainers = rccB.tmpContainers ++ [cid]
        ∧ c8out.committed = rccB.committed ++ [c]
        ∧ c8out.image = hitWorld.commitID cid c
        ∧ c8out.tmpImages = rccB.tmpImages ++ [hitWorld.commitID cid c]) :=
  ⟨by decide, by decide, by decide,
    runContextCommand_empty_hash_ignores_hit hitWorld rccB (toL "foo /dst")
      (toL "foo") (toL "/dst") (toL "foo") (toL "/dst") (toL "foo") (toL "ADD")
      true true c8out (by decide) (by decide) (by decide) (by decide) (by decide)
      (by decide) (fun _ h => (by decide : ¬(toL "ctr" = [])) h) (by decide)⟩
